import Mathlib

/-!
# Verification of the InfoDrop adversarial attack (infod_sample.py)

Shallow embedding of the `InfoDrop` attack class: its constructor
(`InfoDrop.__init__`, lines 41-65) and its optimization loop
(`InfoDrop.forward`, lines 67-129).  Machine floats are modelled by exact
rationals; tensors are modelled by functions from flat indices to rationals.

The JPEG-pipeline collaborators (`block_splitting`, `dct_8x8`, `quantize`,
`dequantize`, `idct_8x8`, `block_merging`, imported from the `compression`
and `decompression` modules) and the classifier are opaque to every claim
treated here, so the reconstruction pipeline, the prediction function and the
gradient produced by `total_cost.backward()` enter the embedding as explicit
functional parameters: the theorems hold for every possible behaviour of
those collaborators.
-/

set_option autoImplicit false

namespace AdvDrop

/-- Pixel / coefficient values: exact-rational model of the float tensors. -/
abbrev Pix := ℚ

/-- A tensor of pixels, indexed by a flat index. -/
abbrev Img := ℕ → Pix

/-- Class labels, as produced by `torch.max(outputs.data, 1)`. -/
abbrev Label := ℕ

/-- The three component keys of the `q_tables` dict: `marks = ['y', 'cb', 'cr']`
(line 62). -/
inductive Mark : Type where
  | y : Mark
  | cb : Mark
  | cr : Mark
deriving DecidableEq

/-- One quantization table per mark, each a flat-indexed float tensor. -/
abbrev Tables := Mark → ℕ → Pix

/-- Ceiling division on naturals: `np.ceil(a / b)` for nonnegative ints `a`,
positive `b` (line 54). -/
def ceilDivNat (a b : ℕ) : ℕ := (a + b - 1) / b

/-- Number of blocks per component plane as the SOURCE computes it, line 54:
`block_n = np.ceil(height / block_size) * np.ceil(height / block_size)` —
note that the source uses `height` in both factors. -/
def blockN (height blockSize : ℕ) : ℕ :=
  ceilDivNat height blockSize * ceilDivNat height blockSize

/-- Modelled from the spec: the block count the specification states,
`ceil(H/block_size) * ceil(W/block_size)`, for comparison with `blockN`. -/
def blockCountSpec (height width blockSize : ℕ) : ℕ :=
  ceilDivNat height blockSize * ceilDivNat width blockSize

/-- The configuration captured by `InfoDrop.__init__` (lines 41-53). -/
structure AttackCfg : Type where
  steps : ℕ
  batchSize : ℕ
  height : ℕ
  width : ℕ
  blockSize : ℕ
  qSize : Pix
  targeted : Bool
deriving DecidableEq

/-- Lower end of `self.factor_range = [5, q_size]` (line 49). -/
def minFactor : Pix := 5

/-- Start of `self.alpha_range = [0.1, 1e-20]` (line 51). -/
def alphaStart : Pix := 1 / 10

/-- End of `self.alpha_range = [0.1, 1e-20]` (line 51). -/
def alphaEnd : Pix := 1 / 10 ^ 20

/-- Per-step alpha increment, line 53:
`(self.alpha_range[1] - self.alpha_range[0]) / self.steps`. -/
def alphaInterval (cfg : AttackCfg) : Pix :=
  (alphaEnd - alphaStart) / (cfg.steps : Pix)

/-- The mutable attack state that `forward` updates across iterations:
`self.alpha` (line 52, 115) and `self.q_tables` (lines 61-65, 118-120). -/
structure LoopState : Type where
  alpha : Pix
  tables : Tables

/-- The state left by the constructor: `self.alpha = 0.1` (line 52) and all
three tables filled with `q_size` (lines 61-65). -/
def initState (cfg : AttackCfg) : LoopState :=
  { alpha := alphaStart, tables := fun _ _ => cfg.qSize }

/-- Everything `InfoDrop.__init__` produces: the stored configuration, the
second dimension of each quantization table (`int(block_n)`, line 55), and
the initial mutable state. -/
structure InfoDropData : Type where
  cfg : AttackCfg
  tableBlocks : ℕ
  state0 : LoopState

/-- Embedding of `InfoDrop.__init__` (lines 41-65).  The constructor performs
no divisibility validation on `height`/`width`; the only ways it can raise are
the two exact divisions by `self.steps` (line 53) and by `block_size`
(line 54), which raise `ZeroDivisionError` when the divisor is `0`. -/
def infoDropInit (height width steps batchSize blockSize : ℕ) (qSize : Pix)
    (targeted : Bool) : Option InfoDropData :=
  if steps = 0 ∨ blockSize = 0 then none
  else
    some { cfg := ⟨steps, batchSize, height, width, blockSize, qSize, targeted⟩
           tableBlocks := blockN height blockSize
           state0 := initState ⟨steps, batchSize, height, width, blockSize, qSize, targeted⟩ }

/-- Elementwise `torch.sign` (line 119): `1` on positives, `-1` on negatives,
`0` at `0`. -/
def signQ (x : Pix) : Pix := if 0 < x then 1 else if x < 0 then -1 else 0

/-- `torch.clamp(x, lo, hi)` on one element (lines 120, 125, 127). -/
def clampQ (x lo hi : Pix) : Pix := min (max x lo) hi

/-- `torch.clamp(rgb_images, min=0, max=255.0)` (lines 125 and 127). -/
def clampImg (img : Img) : Img := fun p => clampQ (img p) 0 255

/-- The per-step table update, lines 118-120: for each mark `k`,
`q_tables[k] = clamp(q_tables[k] - sign(q_tables[k].grad), factor_range[0], factor_range[1])`. -/
def updateTables (cfg : AttackCfg) (g : Tables) (t : Tables) : Tables :=
  fun k i => clampQ (t k i - signQ (g k i)) minFactor cfg.qSize

/-- The state transition one loop iteration applies to the attack state:
`self.alpha += self.alpha_interval` (line 115) followed by the table update
(lines 118-120).  `grad` is the gradient oracle: the value of
`self.q_tables[k].grad` after `total_cost.backward()`, a function of the
tables and alpha the iteration started with. -/
def nextState (cfg : AttackCfg) (grad : Tables → Pix → Tables)
    (st : LoopState) : LoopState :=
  { alpha := st.alpha + alphaInterval cfg
    tables := updateTables cfg (grad st.tables st.alpha) st.tables }

/-- The attack state at the start of step `j` of a run that begins from the
constructed state (so after `j` completed iterations). -/
def stateAt (cfg : AttackCfg) (grad : Tables → Pix → Tables) : ℕ → LoopState
  | 0 => initState cfg
  | j + 1 => nextState cfg grad (stateAt cfg grad j)

/-- Number of successful images in the batch, lines 101-104:
`(pre == labels).sum()` for a targeted attack, `(pre != labels).sum()`
otherwise, counted over the `batch_size` batch entries. -/
def sucCount (cfg : AttackCfg) (pre labels : ℕ → Label) : ℕ :=
  ((Finset.range cfg.batchSize).filter
    (fun b => if cfg.targeted then pre b = labels b else pre b ≠ labels b)).card

/-- The batch success rate, lines 102 and 104: successful count divided by
`self.batch_size`. -/
def sucRate (cfg : AttackCfg) (pre labels : ℕ → Label) : Pix :=
  (sucCount cfg pre labels : Pix) / (cfg.batchSize : Pix)

/-- Batch-wide success as the spec phrases it: every image of the batch is
predicted as the target label (targeted) resp. away from the true label
(untargeted). -/
def batchSuccess (cfg : AttackCfg) (pre labels : ℕ → Label) : Prop :=
  ∀ b < cfg.batchSize, if cfg.targeted then pre b = labels b else pre b ≠ labels b

instance (cfg : AttackCfg) (pre labels : ℕ → Label) :
    Decidable (batchSuccess cfg pre labels) := by
  unfold batchSuccess; infer_instance

/-- The reconstructed image `rgb_images` computed by step `j` (lines 86-98)
from the tables and alpha as they stand at the start of step `j`.  `recon`
is the opaque reconstruction pipeline (split, DCT, quantize, dequantize,
IDCT, merge, concatenate, permute) with the input image batch already
applied. -/
def rgbAt (cfg : AttackCfg) (recon : Tables → Pix → Img)
    (grad : Tables → Pix → Tables) (j : ℕ) : Img :=
  recon (stateAt cfg grad j).tables (stateAt cfg grad j).alpha

/-- The predictions `pre` of step `j` (lines 99-100): the opaque classifier
plus argmax, applied to the reconstruction of step `j`. -/
def preAt (cfg : AttackCfg) (recon : Tables → Pix → Img)
    (pred : Img → ℕ → Label) (grad : Tables → Pix → Tables) (j : ℕ) :
    ℕ → Label :=
  pred (rgbAt cfg recon grad j)

/-- The early-stop test of step `j`, line 123: `suc_rate >= 1`. -/
def okAt (cfg : AttackCfg) (recon : Tables → Pix → Img)
    (pred : Img → ℕ → Label) (grad : Tables → Pix → Tables)
    (labels : ℕ → Label) (j : ℕ) : Prop :=
  1 ≤ sucRate cfg (preAt cfg recon pred grad j) labels

instance (cfg : AttackCfg) (recon : Tables → Pix → Img)
    (pred : Img → ℕ → Label) (grad : Tables → Pix → Tables)
    (labels : ℕ → Label) (j : ℕ) :
    Decidable (okAt cfg recon pred grad labels j) := by
  unfold okAt; infer_instance

/-- The loop `for i in range(self.steps)` (lines 82-126) plus the fall-through
return (lines 127-129), with `fuel` iterations left and `i` the current index.
Each iteration reconstructs the batch, predicts, computes the success rate,
then increments alpha and updates the tables; if the success rate reached `1`
it returns the clamped batch, the predictions and `some i`, otherwise it
continues.  When the budget runs out it returns the clamped reconstruction
and predictions of the final iteration together with `none` (the sentinel
`q_table = None` of lines 71 and 129). -/
def forwardLoopF (cfg : AttackCfg) (recon : Tables → Pix → Img)
    (pred : Img → ℕ → Label) (grad : Tables → Pix → Tables)
    (labels : ℕ → Label) :
    ℕ → ℕ → LoopState → Img → (ℕ → Label) →
      LoopState × Img × (ℕ → Label) × Option ℕ
  | 0, _, st, lastRgb, lastPre => (st, clampImg lastRgb, lastPre, none)
  | fuel + 1, i, st, _, _ =>
    let rgb := recon st.tables st.alpha
    let pre := pred rgb
    let st' := nextState cfg grad st
    if 1 ≤ sucRate cfg pre labels then (st', clampImg rgb, pre, some i)
    else forwardLoopF cfg recon pred grad labels fuel (i + 1) st' rgb pre

/-- Embedding of `InfoDrop.forward` (lines 67-129) run on a freshly
constructed attack: the loop starts from the constructor's state and runs for
`cfg.steps` iterations.  The result is (final attack state, returned image
batch, returned predictions, returned step indicator). -/
def infoDropForward (cfg : AttackCfg) (recon : Tables → Pix → Img)
    (pred : Img → ℕ → Label) (grad : Tables → Pix → Tables)
    (labels : ℕ → Label) : LoopState × Img × (ℕ → Label) × Option ℕ :=
  forwardLoopF cfg recon pred grad labels cfg.steps 0 (initState cfg)
    (fun _ => 0) (fun _ => 0)

/-! ## Heap-level view of `forward`

`forward` is a method on a Python object: the only memory cells it can write
are attributes of `self` and tensors it holds references to.  `AttackHeap`
lists the cells the method can reach: the caller's `images` and `labels`
tensors (passed by reference, lines 67 and 75-76), the classifier's parameter
store (reachable through `self.model`, line 99), and the attack's own mutable
state `self.alpha` / `self.q_tables`.  Line 75-76 read the caller's tensors
through `clone().detach()`; lines 115 and 118-120 assign only to
`self.alpha` and `self.q_tables`; no other reachable cell is ever the target
of an assignment or of an in-place operation in the method body. -/

/-- The mutable cells reachable from `InfoDrop.forward`. -/
structure AttackHeap : Type where
  callerImages : Img
  callerLabels : ℕ → Label
  modelParams : ℕ → Pix
  attackAlpha : Pix
  attackTables : Tables

/-- Heap-level embedding of `InfoDrop.forward`: the reconstruction pipeline
`recon` now takes the (cloned) input batch explicitly and the classifier
`pred` takes its parameter store explicitly.  The method reads the caller's
cells, runs the loop on the attack's own state, and writes back only
`attackAlpha` and `attackTables`. -/
def forwardHeap (cfg : AttackCfg) (recon : Img → Tables → Pix → Img)
    (pred : (ℕ → Pix) → Img → ℕ → Label) (grad : Tables → Pix → Tables)
    (h : AttackHeap) : AttackHeap × Img × (ℕ → Label) × Option ℕ :=
  let images := h.callerImages
  let labels := h.callerLabels
  let r := forwardLoopF cfg (recon images) (pred h.modelParams) grad labels
    cfg.steps 0 ⟨h.attackAlpha, h.attackTables⟩ (fun _ => 0) (fun _ => 0)
  ({ h with attackAlpha := r.1.alpha, attackTables := r.1.tables }, r.2)

/-! ## Concrete instances used by the witnesses -/

/-- A small targeted configuration: 2 steps, batch of 1, q_size 10. -/
def cfgT : AttackCfg := ⟨2, 1, 8, 8, 8, 10, true⟩

/-- A reconstruction pipeline producing an out-of-range constant image. -/
def recon0 : Tables → Pix → Img := fun _ _ _ => 300

/-- A classifier that always predicts label 5. -/
def pred5 : Img → ℕ → Label := fun _ _ => 5

/-- A classifier that always predicts label 7. -/
def pred7 : Img → ℕ → Label := fun _ _ => 7

/-- A zero gradient oracle. -/
def grad0 : Tables → Pix → Tables := fun _ _ _ _ => 0

/-- A gradient oracle that is everywhere positive. -/
def gradPos : Tables → Pix → Tables := fun _ _ _ _ => 3

/-- Labels: target label 5 for every batch entry. -/
def labels5 : ℕ → Label := fun _ => 5

/-! ## Helper lemmas -/

theorem clampQ_le {x lo hi : Pix} : clampQ x lo hi ≤ hi :=
  min_le_right _ _

theorem le_clampQ {x lo hi : Pix} (h : lo ≤ hi) : lo ≤ clampQ x lo hi :=
  le_min (le_max_right _ _) h

theorem sucCount_le (cfg : AttackCfg) (pre labels : ℕ → Label) :
    sucCount cfg pre labels ≤ cfg.batchSize := by
  classical
  calc sucCount cfg pre labels
      ≤ (Finset.range cfg.batchSize).card := Finset.card_filter_le _ _
    _ = cfg.batchSize := Finset.card_range _

/-- `suc_rate >= 1` holds exactly when every batch entry succeeds, for a
nonempty batch. -/
theorem one_le_sucRate_iff (cfg : AttackCfg) (pre labels : ℕ → Label)
    (hb : 0 < cfg.batchSize) :
    1 ≤ sucRate cfg pre labels ↔ batchSuccess cfg pre labels := by
  classical
  have hbq : (0 : Pix) < (cfg.batchSize : Pix) := by exact_mod_cast hb
  unfold sucRate
  rw [le_div_iff₀ hbq, one_mul]
  have hcast : ((cfg.batchSize : Pix) ≤ (sucCount cfg pre labels : Pix)) ↔
      cfg.batchSize ≤ sucCount cfg pre labels := by exact_mod_cast Iff.rfl
  rw [hcast]
  constructor
  · intro hle b hbmem
    have hcard : sucCount cfg pre labels = cfg.batchSize :=
      le_antisymm (sucCount_le cfg pre labels) hle
    have hfull : (Finset.range cfg.batchSize).filter
        (fun b => if cfg.targeted then pre b = labels b else pre b ≠ labels b)
        = Finset.range cfg.batchSize := by
      apply Finset.eq_of_subset_of_card_le (Finset.filter_subset _ _)
      rw [Finset.card_range]
      exact hcard.ge.trans (le_refl _)
    have hmem : b ∈ (Finset.range cfg.batchSize).filter
        (fun b => if cfg.targeted then pre b = labels b else pre b ≠ labels b) := by
      rw [hfull]; exact Finset.mem_range.mpr hbmem
    exact (Finset.mem_filter.mp hmem).2
  · intro hall
    have hfull : (Finset.range cfg.batchSize).filter
        (fun b => if cfg.targeted then pre b = labels b else pre b ≠ labels b)
        = Finset.range cfg.batchSize := by
      apply Finset.filter_true_of_mem
      intro b hbmem
      exact hall b (Finset.mem_range.mp hbmem)
    unfold sucCount
    rw [hfull, Finset.card_range]

/-- Alpha after `k` completed iterations. -/
theorem stateAt_alpha (cfg : AttackCfg) (grad : Tables → Pix → Tables)
    (k : ℕ) :
    (stateAt cfg grad k).alpha = alphaStart + k * alphaInterval cfg := by
  induction k with
  | zero => simp [stateAt, initState]
  | succ n ih =>
    show (nextState cfg grad (stateAt cfg grad n)).alpha = _
    rw [nextState]
    push_cast
    rw [ih]
    ring

section LoopLemmas

variable (cfg : AttackCfg) (recon : Tables → Pix → Img)
variable (pred : Img → ℕ → Label) (grad : Tables → Pix → Tables)
variable (labels : ℕ → Label)

/-- One unfolding of the loop at an arbitrary state. -/
theorem loopF_succ_unfold (fuel i : ℕ) (st : LoopState) (lr : Img)
    (lp : ℕ → Label) :
    forwardLoopF cfg recon pred grad labels (fuel + 1) i st lr lp =
      if 1 ≤ sucRate cfg (pred (recon st.tables st.alpha)) labels then
        (nextState cfg grad st, clampImg (recon st.tables st.alpha),
          pred (recon st.tables st.alpha), some i)
      else
        forwardLoopF cfg recon pred grad labels fuel (i + 1) (nextState cfg grad st)
          (recon st.tables st.alpha) (pred (recon st.tables st.alpha)) :=
  rfl

/-- One unfolding of the loop at the trace state `stateAt i`. -/
theorem loopF_succ_unfold_at (fuel i : ℕ) (lr : Img) (lp : ℕ → Label) :
    forwardLoopF cfg recon pred grad labels (fuel + 1) i (stateAt cfg grad i) lr lp =
      if okAt cfg recon pred grad labels i then
        (stateAt cfg grad (i + 1), clampImg (rgbAt cfg recon grad i),
          preAt cfg recon pred grad i, some i)
      else
        forwardLoopF cfg recon pred grad labels fuel (i + 1) (stateAt cfg grad (i + 1))
          (rgbAt cfg recon grad i) (preAt cfg recon pred grad i) :=
  rfl

/-- The loop reports the `none` sentinel exactly when no remaining step passes
the early-stop test. -/
theorem loopF_none_iff (fuel i : ℕ) (lr : Img) (lp : ℕ → Label) :
    (forwardLoopF cfg recon pred grad labels fuel i (stateAt cfg grad i) lr lp).2.2.2 = none ↔
      ∀ m, i ≤ m → m < i + fuel → ¬ okAt cfg recon pred grad labels m := by
  induction fuel generalizing i lr lp with
  | zero =>
    refine iff_of_true rfl ?_
    intro m h1 h2
    exact absurd h2 (by omega)
  | succ fuel ih =>
    rw [loopF_succ_unfold_at]
    by_cases hok : okAt cfg recon pred grad labels i
    · rw [if_pos hok]
      refine iff_of_false (by simp) ?_
      intro hall
      exact hall i le_rfl (by omega) hok
    · rw [if_neg hok, ih]
      constructor
      · intro h m h1 h2
        rcases Nat.eq_or_lt_of_le h1 with h1 | h1
        · exact h1 ▸ hok
        · exact h m h1 (by omega)
      · intro h m h1 h2
        exact h m (by omega) (by omega)

/-- When `j` is the first remaining step that passes the early-stop test, the
loop returns the state after `j + 1` updates, the clamped reconstruction and
the predictions of step `j`, and the step indicator `some j`. -/
theorem loopF_success_eq (fuel i j : ℕ) (lr : Img) (lp : ℕ → Label)
    (hij : i ≤ j) (hj : j < i + fuel)
    (hok : okAt cfg recon pred grad labels j)
    (hmin : ∀ m, i ≤ m → m < j → ¬ okAt cfg recon pred grad labels m) :
    forwardLoopF cfg recon pred grad labels fuel i (stateAt cfg grad i) lr lp =
      (stateAt cfg grad (j + 1), clampImg (rgbAt cfg recon grad j),
        preAt cfg recon pred grad j, some j) := by
  induction fuel generalizing i lr lp hij hmin with
  | zero => exact absurd hj (by omega)
  | succ fuel ih =>
    rw [loopF_succ_unfold_at]
    by_cases h : okAt cfg recon pred grad labels i
    · have hji : j = i := by
        by_contra hne
        exact hmin i le_rfl (lt_of_le_of_ne hij (Ne.symm hne)) h
      subst hji
      rw [if_pos h]
    · have hlt : i < j := by
        rcases Nat.eq_or_lt_of_le hij with h1 | h1
        · exact absurd (h1 ▸ hok) h
        · exact h1
      rw [if_neg h]
      exact ih (i + 1) _ _ (by omega) (by omega)
        (fun m h1 h2 => hmin m (by omega) h2)

/-- When no remaining step passes the early-stop test, the loop exhausts its
budget and returns the state after all updates, the clamped reconstruction
and predictions of the final iteration, and the `none` sentinel. -/
theorem loopF_exhaust_eq (fuel i : ℕ) (lr : Img) (lp : ℕ → Label)
    (hnone : ∀ m, i ≤ m → m < i + fuel + 1 → ¬ okAt cfg recon pred grad labels m) :
    forwardLoopF cfg recon pred grad labels (fuel + 1) i (stateAt cfg grad i) lr lp =
      (stateAt cfg grad (i + fuel + 1), clampImg (rgbAt cfg recon grad (i + fuel)),
        preAt cfg recon pred grad (i + fuel), none) := by
  induction fuel generalizing i lr lp with
  | zero =>
    rw [loopF_succ_unfold_at, if_neg (hnone i le_rfl (by omega))]
    simp [forwardLoopF]
  | succ fuel ih =>
    rw [loopF_succ_unfold_at, if_neg (hnone i le_rfl (by omega))]
    rw [ih (i + 1) _ _ (fun m h1 h2 => hnone m (by omega) (by omega))]
    have e : i + 1 + fuel = i + (fuel + 1) := by omega
    rw [e]

/-- Every image the loop returns is pointwise clamped into `[0, 255]`. -/
theorem loopF_img_bounds (fuel i : ℕ) (st : LoopState) (lr : Img)
    (lp : ℕ → Label) (p : ℕ) :
    0 ≤ (forwardLoopF cfg recon pred grad labels fuel i st lr lp).2.1 p ∧
      (forwardLoopF cfg recon pred grad labels fuel i st lr lp).2.1 p ≤ 255 := by
  induction fuel generalizing i st lr lp with
  | zero =>
    refine ⟨le_clampQ (by norm_num), clampQ_le⟩
  | succ fuel ih =>
    rw [loopF_succ_unfold]
    by_cases h : 1 ≤ sucRate cfg (pred (recon st.tables st.alpha)) labels
    · rw [if_pos h]
      exact ⟨le_clampQ (by norm_num), clampQ_le⟩
    · rw [if_neg h]
      exact ih _ _ _ _

/-- Characterization of the returned step indicator: `some i` exactly when
`i` is the first step, within budget, that passes the early-stop test. -/
theorem forward_some_iff_ok (i : ℕ) :
    (infoDropForward cfg recon pred grad labels).2.2.2 = some i ↔
      (i < cfg.steps ∧ okAt cfg recon pred grad labels i ∧
        ∀ j < i, ¬ okAt cfg recon pred grad labels j) := by
  classical
  constructor
  · intro h
    by_cases hex : ∃ j, okAt cfg recon pred grad labels j ∧ j < cfg.steps
    · set j0 := Nat.find hex with hj0def
      obtain ⟨hok0, hlt0⟩ := Nat.find_spec hex
      have hmin : ∀ m, 0 ≤ m → m < j0 → ¬ okAt cfg recon pred grad labels m := by
        intro m _ hm
        intro hokm
        exact Nat.find_min hex hm ⟨hokm, by omega⟩
      have heq := loopF_success_eq cfg recon pred grad labels cfg.steps 0 j0
        (fun _ => 0) (fun _ => 0) (Nat.zero_le _) (by omega) hok0 hmin
      have h2 : (infoDropForward cfg recon pred grad labels).2.2.2 = some j0 := by
        show (forwardLoopF cfg recon pred grad labels cfg.steps 0 (stateAt cfg grad 0)
          (fun _ => 0) (fun _ => 0)).2.2.2 = some j0
        rw [heq]
      have hji : i = j0 := Option.some_injective _ (h.symm.trans h2)
      subst hji
      exact ⟨hlt0, hok0, fun j hj => hmin j (Nat.zero_le _) hj⟩
    · push_neg at hex
      have hnone : (infoDropForward cfg recon pred grad labels).2.2.2 = none := by
        show (forwardLoopF cfg recon pred grad labels cfg.steps 0 (stateAt cfg grad 0)
          (fun _ => 0) (fun _ => 0)).2.2.2 = none
        rw [loopF_none_iff]
        intro m _ hm
        intro hokm
        exact absurd (hex m hokm) (by omega)
      rw [h] at hnone
      exact absurd hnone (by simp)
  · rintro ⟨h1, h2, h3⟩
    have heq := loopF_success_eq cfg recon pred grad labels cfg.steps 0 i
      (fun _ => 0) (fun _ => 0) (Nat.zero_le _) (by omega) h2
      (fun m _ hm => h3 m hm)
    show (forwardLoopF cfg recon pred grad labels cfg.steps 0 (stateAt cfg grad 0)
      (fun _ => 0) (fun _ => 0)).2.2.2 = some i
    rw [heq]

/-- Characterization of the `none` sentinel on the whole run. -/
theorem forward_none_iff_ok :
    (infoDropForward cfg recon pred grad labels).2.2.2 = none ↔
      ∀ j < cfg.steps, ¬ okAt cfg recon pred grad labels j := by
  have h := loopF_none_iff cfg recon pred grad labels cfg.steps 0
    (fun _ => 0) (fun _ => 0)
  constructor
  · intro hn j hj
    exact (h.mp hn) j (Nat.zero_le _) (by omega)
  · intro hall
    exact h.mpr (fun m _ hm => hall m (by omega))

/-- The early-stop test is batch-wide success, for a nonempty batch. -/
theorem okAt_iff_batchSuccess (hb : 0 < cfg.batchSize) (j : ℕ) :
    okAt cfg recon pred grad labels j ↔
      batchSuccess cfg (preAt cfg recon pred grad j) labels :=
  one_le_sucRate_iff cfg _ labels hb

end LoopLemmas

/-- Elementwise sign is invariant under scaling by a positive constant. -/
theorem signQ_mul_pos (c x : Pix) (hc : 0 < c) : signQ (c * x) = signQ x := by
  unfold signQ
  rcases lt_trichotomy x 0 with h | h | h
  · have h1 : c * x < 0 := mul_neg_of_pos_of_neg hc h
    rw [if_neg (by linarith), if_pos h1, if_neg (by linarith), if_pos h]
  · simp [h]
  · have h1 : 0 < c * x := mul_pos hc h
    rw [if_pos h1, if_pos h]

/-! ## Claims -/

/-- Claim C1 (code bug): the source computes the per-plane block count at
line 54 as `np.ceil(height/block_size) * np.ceil(height/block_size)`, using
`height` in both factors, so for a non-square plane (height 8, width 16,
block size 8) the second dimension of the quantization tables is `1` while
the claimed `ceil(H/B) * ceil(W/B)` is `2`; the two agree on the square
224x224 default, where both give `784`. -/
theorem blockN_uses_height_twice :
    (infoDropInit 8 16 40 20 8 10 false).map InfoDropData.tableBlocks = some 1 ∧
      blockCountSpec 8 16 8 = 2 ∧
      (infoDropInit 224 224 40 20 8 10 false).map InfoDropData.tableBlocks = some 784 ∧
      blockCountSpec 224 224 8 = 784 ∧ blockN 8 8 = 1 := by
  decide

/-- Claim C2: the run stops early with step indicator `some i` exactly when
`i` is the first step, within the budget, at which the batch-wide success
rate reaches `1` — for a targeted attack every predicted label equals the
target label, for an untargeted attack every predicted label differs from
the true label — for a nonempty batch. -/
theorem forward_success_iff (cfg : AttackCfg) (recon : Tables → Pix → Img)
    (pred : Img → ℕ → Label) (grad : Tables → Pix → Tables)
    (labels : ℕ → Label) (hb : 0 < cfg.batchSize) (i : ℕ) :
    (infoDropForward cfg recon pred grad labels).2.2.2 = some i ↔
      (i < cfg.steps ∧ batchSuccess cfg (preAt cfg recon pred grad i) labels ∧
        ∀ j < i, ¬ batchSuccess cfg (preAt cfg recon pred grad j) labels) := by
  rw [forward_some_iff_ok]
  simp only [okAt_iff_batchSuccess cfg recon pred grad labels hb]

/-- Claim C2 witness: a targeted run against a classifier that always
predicts the target label reports success with step indicator `some 0`. -/
theorem forward_success_iff_witness :
    0 < cfgT.batchSize ∧
      (infoDropForward cfgT recon0 pred5 grad0 labels5).2.2.2 = some 0 :=
  ⟨by decide,
    (forward_success_iff cfgT recon0 pred5 grad0 labels5 (by decide) 0).mpr
      ⟨by decide, by decide, fun j hj => absurd hj (Nat.not_lt_zero j)⟩⟩

/-- Claim C3: `forward` always returns a triple whose third component is the
step index `some i` when the success threshold was reached at step `i`, and
the sentinel `none` exactly when the step budget was exhausted without any
step reaching the threshold; exhaustion is reported through this return
value, the embedded `forward` being a total function. -/
theorem forward_exhaust_sentinel (cfg : AttackCfg) (recon : Tables → Pix → Img)
    (pred : Img → ℕ → Label) (grad : Tables → Pix → Tables)
    (labels : ℕ → Label) (hb : 0 < cfg.batchSize) :
    ((infoDropForward cfg recon pred grad labels).2.2.2 = none ↔
        ∀ j < cfg.steps, ¬ batchSuccess cfg (preAt cfg recon pred grad j) labels) ∧
      ∀ i, (infoDropForward cfg recon pred grad labels).2.2.2 = some i →
        i < cfg.steps ∧ batchSuccess cfg (preAt cfg recon pred grad i) labels := by
  constructor
  · rw [forward_none_iff_ok]
    simp only [okAt_iff_batchSuccess cfg recon pred grad labels hb]
  · intro i hi
    obtain ⟨h1, h2, _⟩ := (forward_some_iff_ok cfg recon pred grad labels i).mp hi
    exact ⟨h1, (okAt_iff_batchSuccess cfg recon pred grad labels hb i).mp h2⟩

/-- Claim C3 witness: a targeted run against a classifier that never predicts
the target label exhausts the budget and returns the `none` sentinel. -/
theorem forward_exhaust_sentinel_witness :
    0 < cfgT.batchSize ∧
      ((infoDropForward cfgT recon0 pred7 grad0 labels5).2.2.2 = none ↔
        ∀ j < cfgT.steps, ¬ batchSuccess cfgT (preAt cfgT recon0 pred7 grad0 j) labels5) :=
  ⟨by decide, (forward_exhaust_sentinel cfgT recon0 pred7 grad0 labels5 (by decide)).1⟩

/-- Claim C4: after the table update of any step — in successful and
exhausted runs alike, the state trace being shared — every element of each of
the three quantization tables lies within `[min_factor, max_factor]`
(here `[5, q_size]`), provided `min_factor ≤ max_factor`. -/
theorem tables_within_budget (cfg : AttackCfg) (grad : Tables → Pix → Tables)
    (h5 : minFactor ≤ cfg.qSize) (k : ℕ) (hk : 0 < k) (m : Mark) (i : ℕ) :
    minFactor ≤ (stateAt cfg grad k).tables m i ∧
      (stateAt cfg grad k).tables m i ≤ cfg.qSize := by
  obtain ⟨k, rfl⟩ : ∃ n, k = n + 1 := ⟨k - 1, by omega⟩
  exact ⟨le_clampQ h5, clampQ_le⟩

/-- Claim C4 witness: with q_size 10 the table entries after the first update
lie within `[5, 10]`. -/
theorem tables_within_budget_witness :
    minFactor ≤ cfgT.qSize ∧ 0 < 1 ∧
      (minFactor ≤ (stateAt cfgT gradPos 1).tables Mark.y 0 ∧
        (stateAt cfgT gradPos 1).tables Mark.y 0 ≤ cfgT.qSize) :=
  ⟨by decide, Nat.one_pos,
    tables_within_budget cfgT gradPos (by decide) 1 Nat.one_pos Mark.y 0⟩

/-- Claim C5: each per-step table update computes, elementwise,
`clamp(old - sign(grad), min_factor, max_factor)`: the step is the sign of
the gradient (a fixed unit step, always `1`, `0` or `-1`) and is invariant
under scaling the gradient by any positive constant, i.e. independent of the
gradient's magnitude. -/
theorem table_update_sign_step (cfg : AttackCfg) (grad : Tables → Pix → Tables)
    (st : LoopState) (m : Mark) (i : ℕ) :
    (nextState cfg grad st).tables m i =
        clampQ (st.tables m i - signQ (grad st.tables st.alpha m i))
          minFactor cfg.qSize ∧
      (signQ (grad st.tables st.alpha m i) = 1 ∨
        signQ (grad st.tables st.alpha m i) = 0 ∨
        signQ (grad st.tables st.alpha m i) = -1) ∧
      ∀ c : Pix, 0 < c →
        clampQ (st.tables m i - signQ (c * grad st.tables st.alpha m i))
            minFactor cfg.qSize =
          (nextState cfg grad st).tables m i := by
  refine ⟨rfl, ?_, ?_⟩
  · unfold signQ
    split_ifs <;> simp
  · intro c hc
    rw [signQ_mul_pos c _ hc]
    rfl

/-- Claim C5 witness: doubling a positive gradient leaves the update of the
first table entry unchanged. -/
theorem table_update_sign_step_witness :
    (0 : Pix) < 2 ∧
      clampQ ((initState cfgT).tables Mark.y 0 -
          signQ (2 * gradPos (initState cfgT).tables (initState cfgT).alpha Mark.y 0))
          minFactor cfgT.qSize =
        (nextState cfgT gradPos (initState cfgT)).tables Mark.y 0 :=
  ⟨by norm_num,
    (table_update_sign_step cfgT gradPos (initState cfgT) Mark.y 0).2.2 2 (by norm_num)⟩

/-- Claim C6: alpha starts at the coarse end `0.1` of its range, is changed
exactly once per step by the fixed increment `(alpha_end - alpha_start)/steps`
and never reset, so after `k` completed steps it equals
`alpha_start + k * increment`; it strictly decreases toward the near-zero end
value, which it reaches exactly after the full `steps` iterations. -/
theorem alpha_schedule (cfg : AttackCfg) (grad : Tables → Pix → Tables)
    (hs : 0 < cfg.steps) :
    (initState cfg).alpha = alphaStart ∧
      (∀ k, (stateAt cfg grad k).alpha = alphaStart + k * alphaInterval cfg) ∧
      (∀ k, (stateAt cfg grad (k + 1)).alpha < (stateAt cfg grad k).alpha) ∧
      (stateAt cfg grad cfg.steps).alpha = alphaEnd := by
  have hq : (cfg.steps : Pix) ≠ 0 := by
    exact_mod_cast hs.ne'
  have hint : alphaInterval cfg < 0 := by
    unfold alphaInterval alphaStart alphaEnd
    apply div_neg_of_neg_of_pos
    · norm_num
    · exact_mod_cast hs
  refine ⟨rfl, stateAt_alpha cfg grad, ?_, ?_⟩
  · intro k
    rw [stateAt_alpha, stateAt_alpha]
    push_cast
    linarith
  · rw [stateAt_alpha]
    unfold alphaInterval
    field_simp

/-- Claim C6 witness: with a 2-step budget alpha reaches the end value after
exactly 2 iterations. -/
theorem alpha_schedule_witness :
    0 < cfgT.steps ∧ (stateAt cfgT grad0 cfgT.steps).alpha = alphaEnd :=
  ⟨by decide, (alpha_schedule cfgT grad0 (by decide)).2.2.2⟩

/-- Claim C7: every element of the image batch `forward` returns lies within
`[0, 255]`, in the successful and in the exhausted branch alike: both
terminal returns clamp the reconstruction into that range. -/
theorem forward_output_clamped (cfg : AttackCfg) (recon : Tables → Pix → Img)
    (pred : Img → ℕ → Label) (grad : Tables → Pix → Tables)
    (labels : ℕ → Label) (p : ℕ) :
    0 ≤ (infoDropForward cfg recon pred grad labels).2.1 p ∧
      (infoDropForward cfg recon pred grad labels).2.1 p ≤ 255 :=
  loopF_img_bounds cfg recon pred grad labels cfg.steps 0 (initState cfg) _ _ p

/-- Claim C8 counterexample: constructing with height 225, which is not
divisible by the block size 8, is not rejected — the constructor succeeds. -/
theorem infoDropInit_accepts_nondivisible :
    (infoDropInit 225 224 40 20 8 10 false).isSome = true := by
  decide

/-- Claim C8 (amended): the constructor performs no divisibility validation:
it succeeds for every height and width — divisible by the block size or not —
whenever `steps` and `block_size` are nonzero (its only failure modes, the
two divisions of lines 53-54). -/
theorem infoDropInit_no_divisibility_check (height width steps batchSize blockSize : ℕ)
    (qSize : Pix) (targeted : Bool) (hs : steps ≠ 0) (hb : blockSize ≠ 0) :
    (infoDropInit height width steps batchSize blockSize qSize targeted).isSome = true := by
  unfold infoDropInit
  rw [if_neg (by simp [hs, hb])]
  rfl

/-- Claim C8 amended-claim witness at the counterexample's input. -/
theorem infoDropInit_no_divisibility_check_witness :
    (40 : ℕ) ≠ 0 ∧ (8 : ℕ) ≠ 0 ∧
      (infoDropInit 225 300 40 20 8 10 false).isSome = true :=
  ⟨by decide, by decide,
    infoDropInit_no_divisibility_check 225 300 40 20 8 10 false
      (by decide) (by decide)⟩

/-- Claim C9: at the level of the mutable cells `forward` can reach, the run
leaves the caller's image and label tensors and the classifier's parameters
exactly as they were: only the attack's own alpha and quantization tables are
written. -/
theorem forward_frame (cfg : AttackCfg) (recon : Img → Tables → Pix → Img)
    (pred : (ℕ → Pix) → Img → ℕ → Label) (grad : Tables → Pix → Tables)
    (h : AttackHeap) :
    (forwardHeap cfg recon pred grad h).1.callerImages = h.callerImages ∧
      (forwardHeap cfg recon pred grad h).1.callerLabels = h.callerLabels ∧
      (forwardHeap cfg recon pred grad h).1.modelParams = h.modelParams :=
  ⟨rfl, rfl, rfl⟩

/-- Claim C10: a run that succeeds at step `i` has nevertheless performed
`i + 1` alpha increments and `i + 1` table updates — the update of step `i`
precedes the early-stop check — while the returned predictions and image were
produced from the tables and alpha as they stood at the start of step `i`. -/
theorem forward_success_state (cfg : AttackCfg) (recon : Tables → Pix → Img)
    (pred : Img → ℕ → Label) (grad : Tables → Pix → Tables)
    (labels : ℕ → Label) (i : ℕ)
    (hsucc : (infoDropForward cfg recon pred grad labels).2.2.2 = some i) :
    (infoDropForward cfg recon pred grad labels).1 = stateAt cfg grad (i + 1) ∧
      (infoDropForward cfg recon pred grad labels).1.alpha =
        alphaStart + ((i + 1 : ℕ) : Pix) * alphaInterval cfg ∧
      (infoDropForward cfg recon pred grad labels).2.2.1 =
        preAt cfg recon pred grad i ∧
      (infoDropForward cfg recon pred grad labels).2.1 =
        clampImg (rgbAt cfg recon grad i) := by
  obtain ⟨h1, h2, h3⟩ := (forward_some_iff_ok cfg recon pred grad labels i).mp hsucc
  have heq : infoDropForward cfg recon pred grad labels =
      (stateAt cfg grad (i + 1), clampImg (rgbAt cfg recon grad i),
        preAt cfg recon pred grad i, some i) :=
    loopF_success_eq cfg recon pred grad labels cfg.steps 0 i
      (fun _ => 0) (fun _ => 0) (Nat.zero_le _) (by omega) h2 (fun m _ hm => h3 m hm)
  rw [heq]
  exact ⟨rfl, stateAt_alpha cfg grad (i + 1), rfl, rfl⟩

/-- The immediate-success run stops with step indicator `some 0`: every
prediction equals the target label already at step 0. -/
theorem forwardT_succ_step0 :
    (infoDropForward cfgT recon0 pred5 grad0 labels5).2.2.2 = some 0 := by
  rw [forward_some_iff_ok]
  refine ⟨by decide, ?_, fun j hj => absurd hj (Nat.not_lt_zero j)⟩
  exact (okAt_iff_batchSuccess cfgT recon0 pred5 grad0 labels5 (by decide) 0).mpr
    (by decide)

/-- Claim C10 witness: in the immediate-success run, the final alpha has
still received one increment. -/
theorem forward_success_state_witness :
    (infoDropForward cfgT recon0 pred5 grad0 labels5).2.2.2 = some 0 ∧
      (infoDropForward cfgT recon0 pred5 grad0 labels5).1.alpha =
        alphaStart + ((0 + 1 : ℕ) : Pix) * alphaInterval cfgT :=
  ⟨forwardT_succ_step0,
    (forward_success_state cfgT recon0 pred5 grad0 labels5 0 forwardT_succ_step0).2.1⟩

end AdvDrop
